import Mathlib

/-!
Verification development for the verb engine of broot (`src/verbs.rs`).

The code is embedded shallowly: strings are Lean `String`s (lists of
characters), the replacement map (a Rust HashMap) is a lookup function
`String → Option String`, fallible or panicking code returns `Option` or
`Except`, and the two external regular expressions of the file are
embedded as executable character-list matchers with exactly the source
patterns.  External collaborators (the regex compiler, the user home
directory lookup, shell escaping, the filesystem directory test) are
passed as parameters or carried as fields, as noted on each definition.
-/

/-- One character of a collapsible path segment: the complement of the
three characters the collapsing pattern of `normalize_path` forbids
inside a segment (slash, dot and backslash). -/
def isSeg (c : Char) : Bool := !(c = '/' || c = '.' || c = '\\')

/-- Recognize a leading slash-dot-dot, the three characters closing a
collapsible occurrence, returning the remainder of the text. -/
def dotDotTail : List Char → Option (List Char)
  | a :: b :: c :: r => if a = '/' ∧ b = '.' ∧ c = '.' then some r else none
  | _ => none

/-- Try to match one occurrence of the collapsing pattern of
`normalize_path` (slash, a nonempty run of segment characters, slash,
dot, dot) at the head of the text, returning the text following the
matched occurrence.  The run of segment characters is necessarily the
maximal such run, since the character after it must be a slash, which is
not a segment character. -/
def matchHere : List Char → Option (List Char)
  | [] => none
  | c :: rest =>
    if c = '/' then
      if (rest.takeWhile isSeg).isEmpty then none
      else dotDotTail (rest.dropWhile isSeg)
    else none

/-- Delete the leftmost occurrence of the collapsing pattern, which is
what one `replace` call inside the loop of `normalize_path` does; `none`
when the text has no occurrence (the `replace` call then returns the
text unchanged and the loop stops). -/
def replaceFirst : List Char → Option (List Char)
  | [] => none
  | c :: cs =>
    match matchHere (c :: cs) with
    | some r => some r
    | none => (replaceFirst cs).map (fun t => c :: t)

/-- The loop of `normalize_path`: keep deleting the leftmost occurrence
while the text keeps shrinking.  The fuel argument bounds the number of
iterations; every successful deletion removes at least five characters,
so fuel equal to the length of the text always suffices to reach the
fixpoint. -/
def normLoop : Nat → List Char → List Char
  | 0, l => l
  | fuel + 1, l =>
    match replaceFirst l with
    | some t => normLoop fuel t
    | none => l

/-- `normalize_path` from verbs.rs: repeatedly delete the leftmost
occurrence of slash, a nonempty run of characters other than slash, dot
and backslash, then slash dot dot, until the length stops decreasing. -/
def normalize_path (path : String) : String :=
  (normLoop path.toList.length path.toList).asString

/-- One step of the textual collapsing rewrite performed by
`normalize_path`: delete one occurrence, anywhere in the text, of slash,
a nonempty run of characters other than slash, dot and backslash, then
slash dot dot. -/
def RemovesOneDotDot (s t : List Char) : Prop :=
  ∃ pre seg post, seg ≠ [] ∧ (∀ c ∈ seg, isSeg c = true) ∧
    s = pre ++ '/' :: (seg ++ '/' :: '.' :: '.' :: post) ∧ t = pre ++ post

/-- The collapsing rewrite step, read on whole strings. -/
def StrRemoves (s t : String) : Prop := RemovesOneDotDot s.toList t.toList

/-- `t` is a normal form of `s` for the collapsing rewrite: reachable
from `s` by zero or more single-occurrence deletions, and no further
deletion applies to it. -/
def NormalFormOf (s t : String) : Prop :=
  Relation.ReflTransGen StrRemoves s t ∧ ∀ u, ¬ StrRemoves t u

/-- A segment character exactly as the specification words it: any
character other than slash and dot.  The specification does not exclude
the backslash, while the character class of the source pattern does. -/
def isSegSpec (c : Char) : Bool := !(c = '/' || c = '.')

/-- One deletion step of the collapsing rewrite exactly as the
specification words it (segment characters per `isSegSpec`). -/
def SpecRemovesOneDotDot (s t : List Char) : Prop :=
  ∃ pre seg post, seg ≠ [] ∧ (∀ c ∈ seg, isSegSpec c = true) ∧
    s = pre ++ '/' :: (seg ++ '/' :: '.' :: '.' :: post) ∧ t = pre ++ post

/-- The key code of a triggering keyboard key; only the enter key is
ever inspected by the embedded code (crossterm is an external library,
so the type is reduced to what the source matches on). -/
inductive MKeyCode : Type where
  | enter : MKeyCode
  | other : String → MKeyCode

/-- A triggering keyboard key event, reduced to its key code (the only
part the embedded code inspects). -/
structure MKeyEvent where
  code : MKeyCode

/-- Modelled from the spec: selection_type.rs is not among the shown
files; the spec says a verb applies to any selection or to files only. -/
inductive SelectionType : Type where
  | Any : SelectionType
  | File : SelectionType

/-- Modelled from the spec: errors.rs is not among the shown files; the
configuration error raised when a declared verb invocation yields an
argument pattern that does not compile, carrying the offending string
(whatever string the source puts in the `invocation` field). -/
inductive ConfError : Type where
  | InvalidVerbInvocation : String → ConfError

deriving instance DecidableEq for ConfError

/-- A runtime verb invocation: a verb name plus optional raw argument
text (struct VerbInvocation of verb_invocation.rs). -/
structure VerbInvocation where
  name : String
  args : Option String

/-- Modelled from the spec: the invocation parser (verb_invocation.rs is
not among the shown files) splits a raw string into the verb name, the
part before the first whitespace character, and the optional argument
text after it (absent when nothing follows the name). -/
def VerbInvocation.fromStr (s : String) : VerbInvocation :=
  let name := (s.toList.takeWhile (fun c => !c.isWhitespace)).asString
  match s.toList.dropWhile (fun c => !c.isWhitespace) with
  | [] => VerbInvocation.mk name none
  | _ :: t => VerbInvocation.mk name (if t.isEmpty then none else some t.asString)

/-- Modelled from the spec: the usage string of a declared invocation
for a given name (verb_invocation.rs is not among the shown files) is
the name followed, when arguments are declared, by a space and the
declared argument text, giving the `name arg-placeholder` shape the
spec describes. -/
def VerbInvocation.to_string_for_name (self : VerbInvocation) (name : String) : String :=
  match self.args with
  | some a => name ++ " " ++ a
  | none => name

/-- The compiled argument-shape regex of a verb, embedded abstractly
(the regex crate is an external dependency): a matcher is given by its
list of named capture groups, in order, and by its capture function,
where `captures s` is `none` when the text does not match and otherwise
gives, for each group name, the captured substring when that group took
part in the match. -/
structure ArgsMatcher where
  capture_names : List String
  captures : String → Option (String → Option String)

/-- `is_match` of the regex crate agrees with `captures` being some. -/
def ArgsMatcher.is_match (r : ArgsMatcher) (s : String) : Bool :=
  (r.captures s).isSome

/-- A selected filesystem path, embedded by the facts the verb engine
reads from it: its text form (`to_string_lossy`), its shell-escaped
text form, whether the filesystem reports it as a directory, and its
parent path when it has one.  Modelled from the spec: the function
escape_for_shell (src/external.rs) is not among the shown files, so the
shell-escaped form is carried abstractly as a field, per the spec words
"escaped for shell if requested". -/
inductive MPath : Type where
  | mk : String → String → Bool → Option MPath → MPath

/-- The plain text form of a path. -/
def MPath.text : MPath → String
  | MPath.mk t _ _ _ => t

/-- The shell-escaped text form of a path. -/
def MPath.escaped : MPath → String
  | MPath.mk _ e _ _ => e

/-- Whether the filesystem reports the path as a directory. -/
def MPath.is_dir : MPath → Bool
  | MPath.mk _ _ d _ => d

/-- The parent of the path, when it has one. -/
def MPath.parent : MPath → Option MPath
  | MPath.mk _ _ _ p => p

/-- `path_to_string` from verbs.rs: the shell-escaped text when
requested for a shell, the plain text otherwise. -/
def path_to_string (path : MPath) (for_shell : Bool) : String :=
  if for_shell then path.escaped else path.text

/-- What makes a verb (struct Verb of verbs.rs); the compiled argument
regex field is embedded as an optional `ArgsMatcher`. -/
structure Verb where
  invocation : VerbInvocation
  key : Option MKeyEvent
  key_desc : String
  args_matcher : Option ArgsMatcher
  shortcut : Option String
  execution : String
  description : Option String
  from_shell : Bool
  leave_broot : Bool
  confirm : Bool
  selection_condition : SelectionType

/-- Insertion into the replacement map; the HashMap is embedded as a
lookup function, and a later insertion overwrites an earlier one at the
same key. -/
def hinsert (m : String → Option String) (k v : String) : String → Option String :=
  fun q => if q = k then some v else m q

/-- The three path-derived insertions done first by
`Verb::replacement_map`: file (the selected path as text), parent (its
parent, falling back to the path itself when there is none), directory
(the file text when the path is a directory, the parent text
otherwise). -/
def path_entries (file : MPath) (for_shell : Bool) : String → Option String :=
  hinsert
    (hinsert
      (hinsert (fun _ => none) "file" (path_to_string file for_shell))
      "parent" (path_to_string (file.parent.getD file) for_shell))
    "directory"
    (if file.is_dir then path_to_string file for_shell
     else path_to_string (file.parent.getD file) for_shell)

/-- `Verb::replacement_map` from verbs.rs: first the three path-derived
entries, then, when the verb carries a compiled argument matcher that
matches the supplied argument text (the empty string when none was
supplied), one insertion per named capture group taking part in the
match, keyed by group name and valued by the captured substring; these
later insertions overwrite a path-derived entry of the same name. -/
def Verb.replacement_map (v : Verb) (file : MPath) (args : Option String)
    (for_shell : Bool) : String → Option String :=
  match v.args_matcher with
  | some r =>
    match r.captures (args.getD "") with
    | some input_cap =>
      r.capture_names.foldl
        (fun m name =>
          match input_cap name with
          | some c => hinsert m name c
          | none => m)
        (path_entries file for_shell)
    | none => path_entries file for_shell
  | none => path_entries file for_shell

/-- The capture-derived part of the replacement map, on its own: the
captured substring for a named group of the matcher that took part in
the match of the supplied argument text, and nothing otherwise. -/
def Verb.cap_entries (v : Verb) (args : Option String) : String → Option String :=
  fun name =>
    match v.args_matcher with
    | some r =>
      match r.captures (args.getD "") with
      | some input_cap => if name ∈ r.capture_names then input_cap name else none
      | none => none
    | none => none

/-- `Verb::match_error` from verbs.rs: no declared arguments and none
supplied succeeds; arguments supplied to a verb declaring none fails
with the name followed by " doesn't take arguments"; a declared matcher
is tested against the supplied argument text, or against the empty
string when none was supplied, and failure yields the usage string of
the declared invocation for the invoked name. -/
def Verb.match_error (v : Verb) (invocation : VerbInvocation) : Option String :=
  match invocation.args, v.args_matcher with
  | none, none => none
  | none, some r =>
    if r.is_match "" then none
    else some (v.invocation.to_string_for_name invocation.name)
  | some s, some r =>
    if r.is_match s then none
    else some (v.invocation.to_string_for_name invocation.name)
  | some _, none => some (invocation.name ++ " doesn\x27t take arguments")

/-- The opening brace character. -/
def lbrace : Char := Char.ofNat 123

/-- The closing brace character. -/
def rbrace : Char := Char.ofNat 125

/-- One character of a placeholder group name or directive: anything
but braces and the colon, per the GROUP pattern of verbs.rs. -/
def isGroupChar (c : Char) : Bool := !(c = lbrace || c = rbrace || c = ':')

/-- Match one placeholder group (open brace, name, optional colon and
directive, close brace) at the head of the text, as the GROUP pattern
of verbs.rs does: name and directive are nonempty runs of characters
other than braces and colon.  Returns the name, the optional directive
and the remaining text. -/
def groupMatchHere : List Char → Option (String × Option String × List Char)
  | [] => none
  | c :: rest =>
    if c = lbrace then
      let g1 := rest.takeWhile isGroupChar
      if g1.isEmpty then none
      else
        match rest.dropWhile isGroupChar with
        | d :: r2 =>
          if d = rbrace then some (g1.asString, none, r2)
          else if d = ':' then
            let g2 := r2.takeWhile isGroupChar
            if g2.isEmpty then none
            else
              match r2.dropWhile isGroupChar with
              | e :: r3 =>
                if e = rbrace then some (g1.asString, some g2.asString, r3) else none
              | [] => none
          else none
        | [] => none
    else none

/-- Replace every placeholder group occurrence in the text, left to
right and without overlaps, by the image of its name and optional
directive under `f`; characters outside occurrences are kept.  Fuel
bounds the scan; every step consumes at least one character, so fuel
equal to the length of the text suffices. -/
def groupReplaceP (f : String → Option String → List Char) : Nat → List Char → List Char
  | _, [] => []
  | 0, l => l
  | fuel + 1, c :: cs =>
    match groupMatchHere (c :: cs) with
    | some (name, directive, rest) => f name directive ++ groupReplaceP f fuel rest
    | none => c :: groupReplaceP f fuel cs

/-- The GROUP replacement performed by `make_invocation_args_regex`:
every placeholder group is replaced by a named capturing pattern built
from the group name, everything else is kept. -/
def group_replace_all (s : String) : String :=
  (groupReplaceP
    (fun name _ => ("(?P<" ++ name ++ ">.+)").toList)
    s.toList.length s.toList).asString

/-- `make_invocation_args_regex` from verbs.rs: rewrite the declared
argument text by the GROUP replacement, anchor it at both ends, and
hand it to the regex compiler (an external dependency, passed as a
parameter); on compilation failure the configuration error carries the
anchored rewritten pattern, which is the string bound to the shadowing
`spec` variable at that point of the source. -/
def make_invocation_args_regex (compile : String → Option ArgsMatcher)
    (spec : String) : Except ConfError ArgsMatcher :=
  let spec2 := group_replace_all spec
  let spec3 := "^" ++ spec2 ++ "$"
  match compile spec3 with
  | some r => Except.ok r
  | none => Except.error (ConfError.InvalidVerbInvocation spec3)

/-- `Verb::create_external` from verbs.rs: parse the declared
invocation, compile the argument matcher when arguments are declared
(propagating the configuration error), pick the selection condition
(files only when the trigger key is enter), and build the verb.  The
key description function (keys.rs, an external collaborator here) is
passed as a parameter. -/
def Verb.create_external (compile : String → Option ArgsMatcher)
    (key_desc_of : MKeyEvent → String) (invocation_str : String)
    (key : Option MKeyEvent) (shortcut : Option String) (execution : String)
    (description : Option String) (from_shell : Bool) (leave_broot : Bool)
    (confirm : Bool) : Except ConfError Verb :=
  let invocation := VerbInvocation.fromStr invocation_str
  let selection_condition :=
    match key with
    | some k =>
      match k.code with
      | MKeyCode.enter => SelectionType.File
      | MKeyCode.other _ => SelectionType.Any
    | none => SelectionType.Any
  match invocation.args with
  | some a =>
    match make_invocation_args_regex compile a with
    | Except.error e => Except.error e
    | Except.ok r =>
      Except.ok
        ⟨invocation, key, key.elim "" key_desc_of, some r, shortcut, execution,
          description, from_shell, leave_broot, confirm, selection_condition⟩
  | none =>
    Except.ok
      ⟨invocation, key, key.elim "" key_desc_of, none, shortcut, execution,
        description, from_shell, leave_broot, confirm, selection_condition⟩

/-- The two anchors a relative input can be resolved against. -/
inductive PathSource : Type where
  | Directory : PathSource
  | Parent : PathSource

/-- `PathSource::replacement_map_key` from verbs.rs. -/
def PathSource.replacement_map_key : PathSource → String
  | PathSource.Directory => "directory"
  | PathSource.Parent => "parent"

/-- The last branch of `path_from`: put the input behind the anchor
found in the replacement map and normalize.  The lookup is an `unwrap`
in the source; `none` models the panic on a missing key. -/
def anchorResolve (source : PathSource) (input : String)
    (m : String → Option String) : Option String :=
  match m source.replacement_map_key with
  | some v => some (normalize_path (v ++ "/" ++ input))
  | none => none

/-- The tilde arm of `path_from`, on the text after the leading tilde:
a tilde alone or followed by a slash takes the home replacement (the
input is kept when no home directory is known), anything else falls
through to the anchored resolution. -/
def path_from_tilde (home : Option String) (source : PathSource) (input : String)
    (m : String → Option String) : List Char → Option String
  | [] =>
    some (match home with
      | some h => h
      | none => input)
  | d :: rest2 =>
    if d = '/' then
      some (match home with
        | some h => h ++ "/" ++ rest2.asString
        | none => input)
    else anchorResolve source input m

/-- The dispatch of `path_from` on the characters of the input: the
two starts-with tests of the source, in source order, with the
anchored resolution as the final branch. -/
def path_from_list (home : Option String) (source : PathSource) (input : String)
    (m : String → Option String) : List Char → Option String
  | [] => anchorResolve source input m
  | c :: rest =>
    if c = '/' then some input
    else if c = '~' then path_from_tilde home source input m rest
    else anchorResolve source input m

/-- `path_from` from verbs.rs: an input starting with a slash is kept
as is; an input that is a tilde alone or starts with tilde-slash has
the tilde replaced by the home directory (the UserDirs lookup is an
external collaborator, passed as the `home` parameter; when no home
directory is found the matched text is put back, leaving the input
unchanged); any other input is anchored on the map entry of the source
and normalized. -/
def path_from (home : Option String) (source : PathSource) (input : String)
    (m : String → Option String) : Option String :=
  path_from_list home source input m input.toList

/-- The resolution rules of the Path Resolver as the specification
words them, for a known anchor value `v`: keep an absolute input; for a
tilde input substitute the home directory when one is known and keep
the input otherwise; otherwise concatenate anchor, slash and input and
normalize. -/
def path_from_spec (home : Option String) (v : String) (input : String) : String :=
  if input.toList.take 1 = ['/'] then input
  else if input.toList.take 2 = ['~', '/'] then
    match home with
    | some h => h ++ "/" ++ (input.toList.drop 2).asString
    | none => input
  else if input = "~" then
    match home with
    | some h => h
    | none => input
  else normalize_path (v ++ "/" ++ input)

/-- The escaping of one character inside the Debug form of a Rust
string, for the characters that can appear here: quote, backslash and
the common control characters get a backslash escape, anything else is
kept (printable characters are kept verbatim by Rust's escape_debug). -/
def rust_char_escape_debug (c : Char) : String :=
  if c = '"' then "\\\""
  else if c = '\\' then "\\\\"
  else if c = '\n' then "\\n"
  else if c = '\r' then "\\r"
  else if c = '\t' then "\\t"
  else if c = Char.ofNat 0 then "\\0"
  else String.singleton c

/-- The Debug form of a Rust string: its characters escaped, between
quotes; this is what the braced question-mark format of the source
prints for the unrecognized directive. -/
def rust_str_debug (s : String) : String :=
  "\"" ++ String.join (s.toList.map rust_char_escape_debug) ++ "\""

/-- `do_exec_replacement` from verbs.rs: a placeholder whose name has
no map entry is rendered back as the braced name; a mapped name with no
directive is replaced by the mapped value; the two path directives
resolve the mapped value through `path_from`; any other directive
produces the literal invalid-format marker with the directive in Rust
Debug form.  `none` models the panic path of the inner `unwrap`. -/
def do_exec_replacement (home : Option String) (name : String)
    (directive : Option String) (replacement_map : String → Option String) :
    Option String :=
  match replacement_map name with
  | some cap =>
    match directive with
    | some fmt =>
      if fmt = "path-from-directory" then
        path_from home PathSource.Directory cap replacement_map
      else if fmt = "path-from-parent" then
        path_from home PathSource.Parent cap replacement_map
      else some ("invalid format: " ++ rust_str_debug fmt)
    | none => some cap
  | none => some ("\x7b" ++ name ++ "\x7d")

/-- A matcher with a single named capture group called file, capturing
the whole nonempty argument text: the compiled form of a declared
invocation whose only argument placeholder is named file, as a verb
configured as `v` followed by a braced `file` placeholder produces. -/
def fileCapMatcher : ArgsMatcher :=
  ArgsMatcher.mk ["file"]
    (fun s => if s = "" then none
     else some (fun n => if n = "file" then some s else none))

/-- A sample selected path `/a/b`, not a directory, with parent `/a`. -/
def pAB : MPath := MPath.mk "/a/b" "/a/b" false (some (MPath.mk "/a" "/a" true none))

/-- A sample external verb whose declared argument placeholder is named
file, so that its matcher has a capture group colliding with the
path-derived map key of the same name. -/
def vFileCap : Verb :=
  ⟨⟨"v", some "\x7bfile\x7d"⟩, none, "", some fileCapMatcher, none, "e", none,
    false, true, false, SelectionType.Any⟩

/-- A sample verb declaring no arguments. -/
def vNoArgs : Verb :=
  ⟨⟨"cd", none⟩, none, "", none, none, "cd", none, true, true, false,
    SelectionType.Any⟩

theorem asString_toList (l : List Char) : l.asString.toList = l := rfl

theorem dotDotTail_eq_some {l r : List Char} (h : dotDotTail l = some r) :
    l = '/' :: '.' :: '.' :: r := by
  match l with
  | [] => simp [dotDotTail] at h
  | [a] => simp [dotDotTail] at h
  | [a, b] => simp [dotDotTail] at h
  | a :: b :: c :: t =>
    by_cases hab : a = '/' ∧ b = '.' ∧ c = '.'
    · obtain ⟨rfl, rfl, rfl⟩ := hab
      simp only [dotDotTail, and_self, if_true, Option.some.injEq] at h
      rw [h]
    · simp [dotDotTail, if_neg hab] at h

theorem matchHere_eq_some {l r : List Char} (h : matchHere l = some r) :
    ∃ seg, seg ≠ [] ∧ (∀ c ∈ seg, isSeg c = true) ∧
      l = '/' :: (seg ++ '/' :: '.' :: '.' :: r) := by
  match l with
  | [] => simp [matchHere] at h
  | c :: rest =>
    simp only [matchHere] at h
    by_cases hc : c = '/'
    · subst hc
      rw [if_pos rfl] at h
      by_cases he : (rest.takeWhile isSeg).isEmpty
      · rw [if_pos he] at h; exact absurd h (by simp)
      · rw [if_neg he] at h
        refine ⟨rest.takeWhile isSeg, ?_, ?_, ?_⟩
        · intro hnil
          rw [hnil] at he
          exact he rfl
        · intro x hx; exact List.mem_takeWhile_imp hx
        · have hd := dotDotTail_eq_some h
          conv_lhs => rw [← List.takeWhile_append_dropWhile (p := isSeg) (l := rest)]
          rw [hd]
    · rw [if_neg hc] at h; exact absurd h (by simp)

theorem takeWhile_seg_append (seg post : List Char) :
    (∀ c ∈ seg, isSeg c = true) →
    (seg ++ '/' :: post).takeWhile isSeg = seg ∧
    (seg ++ '/' :: post).dropWhile isSeg = '/' :: post := by
  induction seg with
  | nil =>
    intro _
    have h0 : ¬ (isSeg '/' = true) := by decide
    simp only [List.nil_append]
    exact ⟨List.takeWhile_cons_of_neg h0, List.dropWhile_cons_of_neg h0⟩
  | cons a t ih =>
    intro hseg
    have ha : isSeg a = true := hseg a (by simp)
    obtain ⟨h1, h2⟩ := ih (fun c hc => hseg c (by simp [hc]))
    constructor
    · simp only [List.cons_append, List.takeWhile_cons_of_pos ha, h1]
    · simp only [List.cons_append, List.dropWhile_cons_of_pos ha, h2]

theorem matchHere_of_seg (seg post : List Char) (hne : seg ≠ [])
    (hseg : ∀ c ∈ seg, isSeg c = true) :
    matchHere ('/' :: (seg ++ '/' :: '.' :: '.' :: post)) = some post := by
  obtain ⟨h1, h2⟩ := takeWhile_seg_append seg ('.' :: '.' :: post) hseg
  simp only [matchHere, if_pos rfl]
  rw [h1, h2]
  have hni : ¬ (seg.isEmpty = true) := by
    cases seg with
    | nil => exact absurd rfl hne
    | cons x xs => simp
  rw [if_neg hni]
  simp [dotDotTail]

theorem matchHere_length {l r : List Char} (h : matchHere l = some r) :
    r.length + 5 ≤ l.length := by
  obtain ⟨seg, hne, _, rfl⟩ := matchHere_eq_some h
  have h1 : 1 ≤ seg.length := by
    cases seg with
    | nil => exact absurd rfl hne
    | cons x xs => simp
  simp only [List.length_cons, List.length_append]
  omega

theorem replaceFirst_length : ∀ {l t : List Char}, replaceFirst l = some t → t.length < l.length := by
  intro l
  induction l with
  | nil => intro t h; simp [replaceFirst] at h
  | cons c cs ih =>
    intro t h
    simp only [replaceFirst] at h
    cases hm : matchHere (c :: cs) with
    | some r =>
      rw [hm] at h
      simp only [Option.some.injEq] at h
      subst h
      have h5 := matchHere_length hm
      simp only [List.length_cons] at h5 ⊢
      omega
    | none =>
      rw [hm] at h
      cases hr : replaceFirst cs with
      | some u =>
        rw [hr] at h
        simp only [Option.map_some', Option.some.injEq] at h
        subst h
        have := ih hr
        simp only [List.length_cons]
        omega
      | none => rw [hr] at h; simp at h

theorem replaceFirst_normLoop : ∀ (fuel : Nat) (l : List Char), l.length ≤ fuel →
    replaceFirst (normLoop fuel l) = none := by
  intro fuel
  induction fuel with
  | zero =>
    intro l hl
    have : l = [] := List.length_eq_zero.mp (Nat.le_zero.mp hl)
    subst this; rfl
  | succ n ih =>
    intro l hl
    simp only [normLoop]
    cases hr : replaceFirst l with
    | some t =>
      have := replaceFirst_length hr
      exact ih t (by omega)
    | none => exact hr

theorem normLoop_of_none {l : List Char} (h : replaceFirst l = none) (fuel : Nat) :
    normLoop fuel l = l := by
  cases fuel with
  | zero => rfl
  | succ n => simp only [normLoop]; rw [h]

theorem replaceFirst_removes {l t : List Char} (h : replaceFirst l = some t) :
    RemovesOneDotDot l t := by
  induction l generalizing t with
  | nil => simp [replaceFirst] at h
  | cons c cs ih =>
    simp only [replaceFirst] at h
    cases hm : matchHere (c :: cs) with
    | some r =>
      rw [hm] at h
      simp only [Option.some.injEq] at h
      obtain ⟨seg, hne, hseg, heq⟩ := matchHere_eq_some hm
      exact ⟨[], seg, r, hne, hseg, by simpa using heq, h.symm⟩
    | none =>
      rw [hm] at h
      cases hr : replaceFirst cs with
      | some u =>
        rw [hr] at h
        simp only [Option.map_some', Option.some.injEq] at h
        subst h
        obtain ⟨pre, seg, post, hne, hseg, he1, he2⟩ := ih hr
        exact ⟨c :: pre, seg, post, hne, hseg, by simp [he1], by simp [he2]⟩
      | none => rw [hr] at h; simp at h

theorem replaceFirst_isSome_append : ∀ (pre s : List Char), (matchHere s).isSome →
    (replaceFirst (pre ++ s)).isSome := by
  intro pre
  induction pre with
  | nil =>
    intro s hs
    cases s with
    | nil => simp [matchHere] at hs
    | cons c cs =>
      simp only [List.nil_append, replaceFirst]
      cases hm : matchHere (c :: cs) with
      | some r => simp
      | none => rw [hm] at hs; simp at hs
  | cons a pre ih =>
    intro s hs
    have h2 := ih s hs
    simp only [List.cons_append, replaceFirst]
    cases hm : matchHere (a :: (pre ++ s)) with
    | some r => simp
    | none =>
      cases hr : replaceFirst (pre ++ s) with
      | some u => simp [hr]
      | none => rw [hr] at h2; simp at h2

theorem replaceFirst_isSome_of_removes {l t : List Char} (h : RemovesOneDotDot l t) :
    (replaceFirst l).isSome := by
  obtain ⟨pre, seg, post, hne, hseg, rfl, -⟩ := h
  exact replaceFirst_isSome_append pre _ (by rw [matchHere_of_seg seg post hne hseg]; rfl)

theorem normLoop_reaches : ∀ (fuel : Nat) (l : List Char),
    Relation.ReflTransGen RemovesOneDotDot l (normLoop fuel l) := by
  intro fuel
  induction fuel with
  | zero => intro l; exact Relation.ReflTransGen.refl
  | succ n ih =>
    intro l
    simp only [normLoop]
    cases hr : replaceFirst l with
    | some t => exact Relation.ReflTransGen.head (replaceFirst_removes hr) (ih t)
    | none => exact Relation.ReflTransGen.refl

/-- C3: `normalize_path` returns exactly the listed outputs on the seven
listed inputs, among them the preserved trailing slash, the preserved
leading slash-dot-dot, and the unchanged relative input. -/
theorem c3_normalize_examples :
    normalize_path "/abc/test/../thing.png" = "/abc/thing.png"
    ∧ normalize_path "/abc/def/../../thing.png" = "/thing.png"
    ∧ normalize_path "/home/dys/.." = "/home"
    ∧ normalize_path "/home/dys/../" = "/home/"
    ∧ normalize_path "/.." = "/.."
    ∧ normalize_path "../test" = "../test"
    ∧ normalize_path "/home/dys/../../../test" = "/../test" := by
  refine ⟨?_, ?_, ?_, ?_, ?_, ?_, ?_⟩ <;> rfl

/-- C4: path normalization is idempotent; normalizing an already
normalized path changes nothing, for every input string. -/
theorem c4_normalize_idempotent (p : String) :
    normalize_path (normalize_path p) = normalize_path p := by
  unfold normalize_path
  simp only [asString_toList]
  rw [normLoop_of_none (replaceFirst_normLoop p.toList.length p.toList (le_refl _))]

/-- C5 (amended): the result of `normalize_path` is a normal form of
the input for the single-occurrence deletion rewrite whose segments are
runs of characters other than slash, dot and backslash: it is reached
from the input by repeatedly deleting one occurrence and admits no
further deletion.  The claim as stated, with segments excluding only
slash and dot as the spec words it, fails (see the counterexample). -/
theorem c5_normal_form (s : String) : NormalFormOf s (normalize_path s) := by
  constructor
  · have h := normLoop_reaches s.toList.length s.toList
    have hlift : ∀ a b : List Char, RemovesOneDotDot a b →
        StrRemoves a.asString b.asString := by
      intro a b hab
      simpa [StrRemoves, asString_toList] using hab
    have h2 := Relation.ReflTransGen.lift List.asString hlift h
    have he : List.asString s.toList = s := rfl
    rw [he] at h2
    exact h2
  · intro u hu
    have h3 : (replaceFirst (normalize_path s).toList).isSome :=
      replaceFirst_isSome_of_removes hu
    unfold normalize_path at h3
    rw [asString_toList] at h3
    rw [replaceFirst_normLoop s.toList.length s.toList (le_refl _)] at h3
    simp at h3

/-- C5 counterexample: on the input slash backslash slash dot dot, the
code deletes nothing (the backslash is not a segment character for the
source pattern), yet the deletion rewrite exactly as the specification
words it still applies to the result, so that result is not a fixpoint
of the spec-worded rewrite. -/
theorem c5_counterexample :
    normalize_path "/\\/.." = "/\\/.." ∧
    SpecRemovesOneDotDot (normalize_path "/\\/..").toList [] := by
  constructor
  · decide
  · exact ⟨[], ['\\'], [], by decide, by decide, by decide, rfl⟩

theorem foldl_caps_lookup (cap : String → Option String) :
    ∀ (names : List String) (m : String → Option String) (k : String),
      (names.foldl (fun acc name =>
        match cap name with
        | some c => hinsert acc name c
        | none => acc) m) k
      = if k ∈ names ∧ (cap k).isSome then cap k else m k := by
  intro names
  induction names with
  | nil => intro m k; simp
  | cons n t ih =>
    intro m k
    rw [List.foldl_cons, ih]
    by_cases h1 : k ∈ t ∧ (cap k).isSome
    · rw [if_pos h1, if_pos ⟨List.mem_cons_of_mem n h1.1, h1.2⟩]
    · rw [if_neg h1]
      cases hn : cap n with
      | some c =>
        simp only [hn, hinsert]
        by_cases hk : k = n
        · subst hk
          rw [if_pos rfl, if_pos ⟨List.mem_cons_self k t, by simp [hn]⟩, hn]
        · rw [if_neg hk]
          have hno : ¬ (k ∈ n :: t ∧ (cap k).isSome) := by
            rintro ⟨hm2, hs2⟩
            rcases List.mem_cons.mp hm2 with hh | hh
            · exact hk hh
            · exact h1 ⟨hh, hs2⟩
          rw [if_neg hno]
      | none =>
        simp only [hn]
        have hno : ¬ (k ∈ n :: t ∧ (cap k).isSome) := by
          rintro ⟨hm2, hs2⟩
          rcases List.mem_cons.mp hm2 with hh | hh
          · subst hh; rw [hn] at hs2; simp at hs2
          · exact h1 ⟨hh, hs2⟩
        rw [if_neg hno]

theorem replacement_map_lookup (v : Verb) (file : MPath) (args : Option String)
    (for_shell : Bool) (k : String) :
    Verb.replacement_map v file args for_shell k =
      match Verb.cap_entries v args k with
      | some s => some s
      | none => path_entries file for_shell k := by
  cases hm : v.args_matcher with
  | none => simp [Verb.replacement_map, Verb.cap_entries, hm]
  | some r =>
    cases hc : r.captures (args.getD "") with
    | none => simp [Verb.replacement_map, Verb.cap_entries, hm, hc]
    | some input_cap =>
      simp only [Verb.replacement_map, Verb.cap_entries, hm, hc]
      rw [foldl_caps_lookup]
      by_cases h1 : k ∈ r.capture_names
      · cases h2 : input_cap k with
        | some s => simp [h1, h2]
        | none => simp [h1, h2]
      · simp [h1]

theorem path_entries_lookup (file : MPath) (for_shell : Bool) (k : String) :
    path_entries file for_shell k =
      if k = "directory" then
        some (if file.is_dir then path_to_string file for_shell
              else path_to_string (file.parent.getD file) for_shell)
      else if k = "parent" then some (path_to_string (file.parent.getD file) for_shell)
      else if k = "file" then some (path_to_string file for_shell)
      else none := rfl

/-- C1 (amended): for every verb, selected path, optional argument text
and escaping flag, the replacement map is exactly the capture-derived
entries laid over the three path-derived entries: looking up any key
gives the captured substring of the like-named participating capture
group when the matcher matched, and otherwise the path-derived value,
which is the selected path text at key file, the parent text (the path
itself when it has no parent) at key parent, and the file or parent
text, by the directory test, at key directory, with nothing at any
other key.  The claim as stated fails only in that a capture group
sharing its name with one of the three built-in keys overrides the
path-derived entry rather than coexisting with it (see the
counterexample). -/
theorem c1_replacement_map (v : Verb) (file : MPath) (args : Option String)
    (for_shell : Bool) (k : String) :
    (Verb.replacement_map v file args for_shell k =
      match Verb.cap_entries v args k with
      | some s => some s
      | none => path_entries file for_shell k)
    ∧ (path_entries file for_shell k =
      if k = "directory" then
        some (if file.is_dir then path_to_string file for_shell
              else path_to_string (file.parent.getD file) for_shell)
      else if k = "parent" then some (path_to_string (file.parent.getD file) for_shell)
      else if k = "file" then some (path_to_string file for_shell)
      else none) :=
  ⟨replacement_map_lookup v file args for_shell k, path_entries_lookup file for_shell k⟩

/-- C1 counterexample: a verb whose declared argument placeholder is
named file has a matcher capturing a group called file; on argument
text x the built map holds x, not the selected path text, under the
key file, so the map does not contain the entry the claim requires. -/
theorem c1_counterexample :
    Verb.replacement_map vFileCap pAB (some "x") false "file" = some "x"
    ∧ Verb.replacement_map vFileCap pAB (some "x") false "file"
        ≠ some (path_to_string pAB false) := by
  constructor
  · rfl
  · decide

/-- C8: in shell-string mode the replacement map is built with the
escaping flag set (verbs.rs line 313) and in token mode with it unset
(line 299); with the flag set, the three path-derived entries hold the
shell-escaped text forms, with it unset the plain text forms, and in
both modes any capture-derived entry overrides with exactly the raw
captured substring, identical in the two modes, since the capture part
never passes through the escaping. -/
theorem c8_escaping (v : Verb) (file : MPath) (args : Option String) (k : String) :
    path_entries file true "file" = some file.escaped
    ∧ path_entries file true "parent" = some (file.parent.getD file).escaped
    ∧ path_entries file true "directory"
        = some (if file.is_dir then file.escaped else (file.parent.getD file).escaped)
    ∧ path_entries file false "file" = some file.text
    ∧ path_entries file false "parent" = some (file.parent.getD file).text
    ∧ path_entries file false "directory"
        = some (if file.is_dir then file.text else (file.parent.getD file).text)
    ∧ (Verb.replacement_map v file args true k =
        match Verb.cap_entries v args k with
        | some s => some s
        | none => path_entries file true k)
    ∧ (Verb.replacement_map v file args false k =
        match Verb.cap_entries v args k with
        | some s => some s
        | none => path_entries file false k) :=
  ⟨rfl, rfl, rfl, rfl, rfl, rfl, replacement_map_lookup v file args true k,
    replacement_map_lookup v file args false k⟩

theorem map_source_key_isSome (v : Verb) (file : MPath) (args : Option String)
    (for_shell : Bool) (source : PathSource) :
    (Verb.replacement_map v file args for_shell source.replacement_map_key).isSome := by
  rw [replacement_map_lookup]
  cases hc : Verb.cap_entries v args source.replacement_map_key with
  | some s => simp
  | none =>
    cases source <;>
      simp [path_entries_lookup, PathSource.replacement_map_key]

theorem path_from_isSome_of_key (home : Option String) (source : PathSource)
    (input : String) (m : String → Option String)
    (h : (m source.replacement_map_key).isSome) :
    (path_from home source input m).isSome := by
  have ha : (anchorResolve source input m).isSome := by
    unfold anchorResolve
    cases hk : m source.replacement_map_key with
    | some v => simp
    | none => rw [hk] at h; simp at h
  unfold path_from
  cases hl : input.toList with
  | nil => exact ha
  | cons c rest =>
    simp only [path_from_list]
    by_cases h1 : c = '/'
    · rw [if_pos h1]; rfl
    · rw [if_neg h1]
      by_cases h2 : c = '~'
      · rw [if_pos h2]
        cases rest with
        | nil => rfl
        | cons d rest2 =>
          simp only [path_from_tilde]
          by_cases h3 : d = '/'
          · rw [if_pos h3]; rfl
          · rw [if_neg h3]; exact ha
      · rw [if_neg h2]; exact ha

/-- C10: for every replacement map built by the replacement-map builder
and either path source, the lookup of the source key succeeds, the
anchored path resolution never hits its panicking unwrap, and one
placeholder replacement through `do_exec_replacement` always produces a
value on such a map, whatever the placeholder name and directive. -/
theorem c10_no_panic (v : Verb) (file : MPath) (args : Option String) (for_shell : Bool)
    (source : PathSource) (home : Option String) (input name : String)
    (directive : Option String) :
    (Verb.replacement_map v file args for_shell source.replacement_map_key).isSome
    ∧ (path_from home source input (Verb.replacement_map v file args for_shell)).isSome
    ∧ (do_exec_replacement home name directive
        (Verb.replacement_map v file args for_shell)).isSome := by
  refine ⟨map_source_key_isSome v file args for_shell source,
    path_from_isSome_of_key home source input _
      (map_source_key_isSome v file args for_shell source), ?_⟩
  unfold do_exec_replacement
  cases hn : Verb.replacement_map v file args for_shell name with
  | none => rfl
  | some cap =>
    cases directive with
    | none => rfl
    | some fmt =>
      show (if fmt = "path-from-directory" then
              path_from home PathSource.Directory cap
                (Verb.replacement_map v file args for_shell)
            else if fmt = "path-from-parent" then
              path_from home PathSource.Parent cap
                (Verb.replacement_map v file args for_shell)
            else some ("invalid format: " ++ rust_str_debug fmt)).isSome = true
      by_cases h1 : fmt = "path-from-directory"
      · rw [if_pos h1]
        exact path_from_isSome_of_key home PathSource.Directory cap _
          (map_source_key_isSome v file args for_shell PathSource.Directory)
      · rw [if_neg h1]
        by_cases h2 : fmt = "path-from-parent"
        · rw [if_pos h2]
          exact path_from_isSome_of_key home PathSource.Parent cap _
            (map_source_key_isSome v file args for_shell PathSource.Parent)
        · rw [if_neg h2]; rfl

/-- C2 (amended): `match_error` returns no error exactly when either no
arguments are declared and none are supplied, or a matcher is declared
and it matches the supplied argument text (the empty string when none
was supplied); arguments supplied to a verb declaring none fail with
the message built from the invoked name followed by " doesn't take
arguments" (the claim's quoted message "verb takes no arguments" is not
what the code produces, see the counterexample); a declared matcher
that does not match fails with the usage string of the declared
invocation for the invoked name.  In particular, for a verb with no
compiled matcher, no error is returned exactly when the invocation
supplies no argument text. -/
theorem c2_match_error (v : Verb) (inv : VerbInvocation) :
    (Verb.match_error v inv = none ↔
      (inv.args = none ∧ v.args_matcher = none)
      ∨ (∃ r, v.args_matcher = some r ∧ r.is_match (inv.args.getD "") = true))
    ∧ (∀ s, inv.args = some s → v.args_matcher = none →
        Verb.match_error v inv = some (inv.name ++ " doesn\x27t take arguments"))
    ∧ (∀ r, v.args_matcher = some r → r.is_match (inv.args.getD "") = false →
        Verb.match_error v inv = some (VerbInvocation.to_string_for_name v.invocation inv.name))
    ∧ (v.args_matcher = none → (Verb.match_error v inv = none ↔ inv.args = none)) := by
  obtain ⟨nm, args⟩ := inv
  cases hm : v.args_matcher with
  | none =>
    cases args with
    | none => refine ⟨?_, ?_, ?_, ?_⟩ <;> simp [Verb.match_error, hm]
    | some s => refine ⟨?_, ?_, ?_, ?_⟩ <;> simp [Verb.match_error, hm]
  | some r =>
    cases args with
    | none =>
      by_cases him : r.is_match "" = true
      · refine ⟨?_, ?_, ?_, ?_⟩ <;> simp [Verb.match_error, hm, him]
      · have him2 : r.is_match "" = false := by
          cases hb : r.is_match "" with
          | true => exact absurd hb him
          | false => rfl
        refine ⟨?_, ?_, ?_, ?_⟩ <;> simp [Verb.match_error, hm, him2]
    | some s =>
      by_cases him : r.is_match s = true
      · refine ⟨?_, ?_, ?_, ?_⟩ <;> simp [Verb.match_error, hm, him]
      · have him2 : r.is_match s = false := by
          cases hb : r.is_match s with
          | true => exact absurd hb him
          | false => rfl
        refine ⟨?_, ?_, ?_, ?_⟩ <;> simp [Verb.match_error, hm, him2]

/-- C2 witness: the three hypothesis-bearing parts of the theorem at
concrete inputs: a no-argument verb invoked with argument text gets the
code's message; a verb with a matcher that rejects the empty text,
invoked without arguments, gets the usage string; and for a
matcher-less verb, no error is equivalent to no supplied text. -/
theorem c2_witness :
    Verb.match_error vNoArgs (VerbInvocation.mk "cd" (some "x"))
        = some ("cd" ++ " doesn\x27t take arguments")
    ∧ Verb.match_error vFileCap (VerbInvocation.mk "v" none)
        = some (VerbInvocation.to_string_for_name vFileCap.invocation "v")
    ∧ (Verb.match_error vNoArgs (VerbInvocation.mk "cd" none) = none
        ↔ (VerbInvocation.mk "cd" none).args = none) :=
  ⟨(c2_match_error vNoArgs (VerbInvocation.mk "cd" (some "x"))).2.1 "x" rfl rfl,
   (c2_match_error vFileCap (VerbInvocation.mk "v" none)).2.2.1 fileCapMatcher rfl (by decide),
   (c2_match_error vNoArgs (VerbInvocation.mk "cd" none)).2.2.2 rfl⟩

/-- C2 counterexample: a verb declaring no arguments, invoked with
argument text, does fail, but the failure message is not the claimed
"verb takes no arguments". -/
theorem c2_counterexample :
    (Verb.match_error vNoArgs (VerbInvocation.mk "cd" (some "x"))).isSome = true
    ∧ Verb.match_error vNoArgs (VerbInvocation.mk "cd" (some "x"))
        ≠ some "verb takes no arguments" := by
  constructor
  · rfl
  · decide

/-- C6: for either context and any replacement map holding the context
key, `path_from` follows the three spec resolution rules, rendered by
`path_from_spec`: an input starting with a slash is returned unchanged;
a tilde-slash input (or a bare tilde) has the tilde replaced by the
known home directory and is kept unchanged when none is known; any
other input is the normalization of the context map entry, a slash and
the input. -/
theorem c6_path_from (home : Option String) (source : PathSource) (input : String)
    (m : String → Option String) (v : String)
    (h : m source.replacement_map_key = some v) :
    path_from home source input m = some (path_from_spec home v input) := by
  have hanchor : anchorResolve source input m
      = some (normalize_path (v ++ "/" ++ input)) := by
    unfold anchorResolve
    rw [h]
  unfold path_from path_from_spec
  cases hl : input.toList with
  | nil =>
    have hne : ¬ (input = "~") := by
      intro he
      rw [he] at hl
      exact absurd hl (by decide)
    simp only [path_from_list]
    rw [hanchor, if_neg (by decide), if_neg (by decide), if_neg hne]
  | cons c rest =>
    simp only [path_from_list]
    have ht1 : List.take 1 (c :: rest) = [c] := rfl
    by_cases h1 : c = '/'
    · subst h1
      rw [if_pos rfl, if_pos ht1]
    · rw [if_neg h1]
      have hc1 : ¬ (List.take 1 (c :: rest) = ['/']) := by
        rw [ht1]
        intro hx
        exact h1 (by injection hx)
      by_cases h2 : c = '~'
      · subst h2
        rw [if_pos rfl]
        cases rest with
        | nil =>
          have h3 : input = "~" := String.ext hl
          have hc2 : ¬ (List.take 2 ['~'] = ['~', '/']) := by decide
          rw [if_neg hc1, if_neg hc2, if_pos h3]
          rfl
        | cons d rest2 =>
          simp only [path_from_tilde]
          by_cases h4 : d = '/'
          · subst h4
            have hc2 : List.take 2 ('~' :: '/' :: rest2) = ['~', '/'] := rfl
            rw [if_pos rfl, if_neg hc1, if_pos hc2]
            rfl
          · rw [if_neg h4]
            have hc2 : ¬ (List.take 2 ('~' :: d :: rest2) = ['~', '/']) := by
              rw [show List.take 2 ('~' :: d :: rest2)
                  = '~' :: List.take 1 (d :: rest2) from rfl]
              intro hx
              rw [List.cons.injEq] at hx
              have hx2 := hx.2
              rw [show List.take 1 (d :: rest2) = [d] from rfl] at hx2
              exact h4 (by injection hx2)
            have hne : ¬ (input = "~") := by
              intro he
              rw [he] at hl
              have h5 : (['~'] : List Char) = '~' :: d :: rest2 := hl
              simp at h5
            rw [hanchor, if_neg hc1, if_neg hc2, if_neg hne]
      · have hc2 : ¬ (List.take 2 (c :: rest) = ['~', '/']) := by
          rw [show List.take 2 (c :: rest) = c :: List.take 1 rest from rfl]
          intro hx
          rw [List.cons.injEq] at hx
          exact h2 hx.1
        have hne : ¬ (input = "~") := by
          intro he
          rw [he] at hl
          have h5 : (['~'] : List Char) = c :: rest := hl
          rw [List.cons.injEq] at h5
          exact h2 h5.1.symm
        rw [if_neg h2, hanchor, if_neg hc1, if_neg hc2, if_neg hne]

/-- C6 witness: the spec scenario; the tilde-slash input docs resolved
with home directory /home/alice gives /home/alice/docs, whatever the
map holds at the context key. -/
theorem c6_witness :
    path_from (some "/home/alice") PathSource.Directory "~/docs"
      (fun k => if k = "directory" then some "/sel" else none)
      = some "/home/alice/docs" := by
  rw [c6_path_from (some "/home/alice") PathSource.Directory "~/docs"
    (fun k => if k = "directory" then some "/sel" else none) "/sel" (by decide)]
  rfl

/-- C7: a placeholder whose name is absent from the replacement map
expands to the braced name itself instead of aborting, and a mapped
name with a directive other than the two path directives expands to the
literal invalid-format marker carrying the directive in Rust Debug
form, instead of failing the expansion. -/
theorem c7_do_exec_replacement (home : Option String) (name : String)
    (directive : Option String) (m : String → Option String) :
    (m name = none →
      do_exec_replacement home name directive m = some ("\x7b" ++ name ++ "\x7d"))
    ∧ (∀ cap d, m name = some cap → directive = some d →
        d ≠ "path-from-directory" → d ≠ "path-from-parent" →
        do_exec_replacement home name directive m
          = some ("invalid format: " ++ rust_str_debug d)) := by
  constructor
  · intro h
    unfold do_exec_replacement
    rw [h]
  · intro cap d hm hd h1 h2
    subst hd
    unfold do_exec_replacement
    rw [hm]
    show (if d = "path-from-directory" then path_from home PathSource.Directory cap m
          else if d = "path-from-parent" then path_from home PathSource.Parent cap m
          else some ("invalid format: " ++ rust_str_debug d))
        = some ("invalid format: " ++ rust_str_debug d)
    rw [if_neg h1, if_neg h2]

/-- C7 witness: the two parts at concrete inputs: an unmapped name
under a map with no entries keeps its braced form, and a mapped name
with the directive bad yields the invalid-format marker. -/
theorem c7_witness :
    do_exec_replacement none "x" (some "bad") (fun _ => none)
        = some ("\x7b" ++ "x" ++ "\x7d")
    ∧ do_exec_replacement none "x" (some "bad") (fun _ => some "v")
        = some ("invalid format: " ++ rust_str_debug "bad") :=
  ⟨(c7_do_exec_replacement none "x" (some "bad") (fun _ => none)).1 rfl,
   (c7_do_exec_replacement none "x" (some "bad") (fun _ => some "v")).2
     "v" "bad" rfl rfl (by decide) (by decide)⟩

/-- C9 (amended): building an external verb fails exactly when the
declared invocation has argument text whose derived anchored pattern
(the GROUP rewrite of the argument text between the two anchors) does
not compile, and the configuration error then identifies that derived
anchored pattern; it does not carry the declared invocation text
itself (see the counterexample).  There is no other failure mode. -/
theorem c9_create_external (compile : String → Option ArgsMatcher)
    (key_desc_of : MKeyEvent → String) (invocation_str : String)
    (key : Option MKeyEvent) (shortcut : Option String) (execution : String)
    (description : Option String) (from_shell leave_broot confirm : Bool)
    (e : ConfError) :
    Verb.create_external compile key_desc_of invocation_str key shortcut execution
        description from_shell leave_broot confirm = Except.error e
    ↔ ∃ a, (VerbInvocation.fromStr invocation_str).args = some a
        ∧ compile ("^" ++ group_replace_all a ++ "$") = none
        ∧ e = ConfError.InvalidVerbInvocation ("^" ++ group_replace_all a ++ "$") := by
  cases ha : (VerbInvocation.fromStr invocation_str).args with
  | none =>
    simp only [Verb.create_external, make_invocation_args_regex, ha]
    constructor
    · intro hE
      exact Except.noConfusion hE
    · rintro ⟨a2, ha2, -, -⟩
      exact Option.noConfusion ha2
  | some a =>
    cases hc : compile ("^" ++ group_replace_all a ++ "$") with
    | none =>
      simp only [Verb.create_external, make_invocation_args_regex, ha, hc]
      constructor
      · intro hE
        exact ⟨a, rfl, hc, (Except.error.inj hE).symm⟩
      · rintro ⟨a2, ha2, hc2, he⟩
        obtain rfl : a = a2 := by injection ha2
        rw [he]
    | some r =>
      simp only [Verb.create_external, make_invocation_args_regex, ha, hc]
      constructor
      · intro hE
        exact Except.noConfusion hE
      · rintro ⟨a2, ha2, hc2, he⟩
        obtain rfl : a = a2 := by injection ha2
        rw [hc] at hc2
        exact Option.noConfusion hc2

/-- C9 counterexample: the declared invocation `v (` (argument text a
lone opening parenthesis) derives the anchored pattern caret, opening
parenthesis, dollar, which fails to compile as a regex; the
configuration error carries that derived pattern, which is neither the
declared invocation text nor its argument part. -/
theorem c9_counterexample :
    Verb.create_external (fun _ => none) (fun _ => "") "v (" none none "x" none
        false false false
      = Except.error (ConfError.InvalidVerbInvocation "^($")
    ∧ ("^($" : String) ≠ "v (" ∧ ("^($" : String) ≠ "(" := by
  refine ⟨rfl, by decide, by decide⟩
